import Mathlib

/-!
Legion daemon registry (`daemon.c`): shallow embedding and verification

The C program keeps a singly linked list of `daemon_t` records whose first node is the
global `head`, and a line-oriented dispatcher `run_cli` that calls the registry
functions.  The embedding below represents

* the linked list as a `List daemon_t` (first node first),
* C strings as `String` (`strcmp(a, b) == 0` is equality),
* the `int` fields `pid` and `state` as `Int` (no arithmetic is ever done on them),
* everything a function does besides updating the list (the calls of the external
  `sf_*` hooks and the text written to `out`) as a list of `Event`s, in program order,
* the outcome of the three allocations of `register_daemon` as an explicit `Alloc`,
* the contents of the never-written buffer `status_message` of `status_all` as a
  parameter.

Every registry function is a function from the list before the call to the list after
the call together with the events of the call.  The global `registered_daemon_count` is
never read or written by the program and is not represented.
-/

namespace Legion

/-! ## Data model -/

/-- The enumerators of `DaemonState`, with their C values. -/
def DAEMON_INACTIVE : Int := 0
def DAEMON_ACTIVE : Int := 1
def DAEMON_STARTING : Int := 2
def DAEMON_STOPPING : Int := 3
def DAEMON_EXITED : Int := 4
def DAEMON_CRASHED : Int := 5
def DAEMON_UNKNOWN : Int := 6

/-- One node of the linked list (`struct daemon` without the `next` pointer). -/
structure daemon_t where
  name : String
  command : String
  pid : Int
  state : Int
  deriving DecidableEq

/-- What a call does besides changing the list: calls of the external hooks and
text printed with `fprintf(out, ...)`. -/
inductive Event where
  | sf_prompt : Event
  | sf_error (msg : String) : Event
  | sf_register (name cmd : String) : Event
  | sf_unregister (name : String) : Event
  | sf_status (msg : String) : Event
  | out (text : String) : Event
  deriving DecidableEq

/-- Outcome of the three allocations made by `register_daemon`: the `malloc` of the
node, the `strdup` of the name and the `strdup` of the command (`true` = success). -/
structure Alloc where
  node : Bool
  name : Bool
  command : Bool
  deriving DecidableEq

/-- All allocations succeed. -/
def Alloc.ok : Alloc := ⟨true, true, true⟩

/-! ## Registry functions -/

/-- `start`: the body of the C function is empty. -/
def start (_name : String) (head : List daemon_t) : List daemon_t × List Event :=
  (head, [])

/-- `allocate_and_copy`: `strdup`, reporting a failure through `sf_error`. -/
def allocate_and_copy (ok : Bool) (src : String) : Option String × List Event :=
  if ok then (some src, []) else (none, [Event.sf_error "Memory allocation failed."])

/-- `is_daemon_registered`: walk the list, `true` at the first node with that name. -/
def is_daemon_registered (name : String) : List daemon_t → Bool
  | [] => false
  | current :: next =>
    if current.name = name then true else is_daemon_registered name next

/-- `register_daemon`. -/
def register_daemon (name cmd : String) (mem : Alloc) (head : List daemon_t) :
    List daemon_t × List Event :=
  if is_daemon_registered name head then
    (head, [Event.sf_error "Daemon already registered."])
  else if !mem.node then
    (head, [Event.sf_error "Memory allocation failed."])
  else
    match allocate_and_copy mem.name name with
    | (none, ev) => (head, ev)
    | (some new_name, ev1) =>
      match allocate_and_copy mem.command cmd with
      | (none, ev2) => (head, ev1 ++ ev2)
      | (some new_command, ev2) =>
        (⟨new_name, new_command, -1, DAEMON_INACTIVE⟩ :: head,
          ev1 ++ ev2 ++ [Event.sf_register name cmd])

/-- `unregister_daemon`: `indirect` walks to the first node with that name; the nodes
before it are kept, and the node is unlinked only when its state is `DAEMON_INACTIVE`. -/
def unregister_daemon (name : String) : List daemon_t → List daemon_t × List Event
  | [] => ([], [Event.sf_error "Daemon with the specified name not found."])
  | current :: next =>
    if current.name ≠ name then
      ((current :: (unregister_daemon name next).1), (unregister_daemon name next).2)
    else if current.state ≠ DAEMON_INACTIVE then
      (current :: next, [Event.sf_error "Daemon is not in the inactive state."])
    else
      (next, [Event.sf_unregister name])

/-- `daemon_state`. -/
def daemon_state (state : Int) : String :=
  if state = DAEMON_INACTIVE then "inactive"
  else if state = DAEMON_ACTIVE then "active"
  else if state = DAEMON_STARTING then "starting"
  else if state = DAEMON_STOPPING then "stopping"
  else if state = DAEMON_EXITED then "exited"
  else if state = DAEMON_CRASHED then "crashed"
  else "unknown"

/-- The text of `fprintf(out, "%s\t%d\t%s\n", name, pid, daemon_state(state))`. -/
def status_line (d : daemon_t) : String :=
  d.name ++ "\t" ++ toString d.pid ++ "\t" ++ daemon_state d.state ++ "\n"

/-- The events of `daemon_status` on the nodes from `current` on. -/
def daemon_status_events (name : String) : List daemon_t → List Event
  | [] => [Event.sf_error "Daemon with the specified name not found."]
  | current :: next =>
    if current.name = name then [Event.out (status_line current)]
    else daemon_status_events name next

/-- `daemon_status`: the list is only read. -/
def daemon_status (name : String) (head : List daemon_t) : List daemon_t × List Event :=
  (head, daemon_status_events name head)

/-- `status_all`.  `status_message` is the content of the local buffer of that name,
which the function passes to `sf_status` and prints without ever writing to it. -/
def status_all (status_message : String) (head : List daemon_t) :
    List daemon_t × List Event :=
  match head with
  | [] => (head, [Event.out "No daemons registered.\n"])
  | _ :: _ =>
    (head, head.map (fun current => Event.out (status_line current))
      ++ [Event.sf_status status_message, Event.out (status_message ++ "\n")])

/-- The first node with the given name, as found by the loops of `daemon_status` and
`unregister_daemon`. -/
def lookup (name : String) : List daemon_t → Option daemon_t
  | [] => none
  | current :: next => if current.name = name then some current else lookup name next

/-! ## Sequences of calls -/

/-- A call of one of the registry functions, with its arguments (and, for
`register_daemon`, the outcome of its allocations; for `status_all`, the content of its
local buffer). -/
inductive Call where
  | register_daemon (name cmd : String) (mem : Alloc) : Call
  | unregister_daemon (name : String) : Call
  | start (name : String) : Call
  | daemon_status (name : String) : Call
  | status_all (status_message : String) : Call
  deriving DecidableEq

/-- Perform one call on the list. -/
def Call.exec : Call → List daemon_t → List daemon_t × List Event
  | Call.register_daemon name cmd mem, head => Legion.register_daemon name cmd mem head
  | Call.unregister_daemon name, head => Legion.unregister_daemon name head
  | Call.start name, head => Legion.start name head
  | Call.daemon_status name, head => Legion.daemon_status name head
  | Call.status_all status_message, head => Legion.status_all status_message head

/-- The list after a sequence of calls, performed from left to right. -/
def run_calls : List Call → List daemon_t → List daemon_t
  | [], head => head
  | c :: cs, head => run_calls cs (c.exec head).1

/-- Register the given (name, command) pairs from left to right, every allocation
succeeding. -/
def register_all : List (String × String) → List daemon_t → List daemon_t
  | [], head => head
  | p :: ps, head => register_all ps (register_daemon p.1 p.2 Alloc.ok head).1

/-- Every record of a list satisfies: no process id, state `DAEMON_INACTIVE`. -/
def all_idle (head : List daemon_t) : Prop :=
  ∀ d ∈ head, d.pid = -1 ∧ d.state = DAEMON_INACTIVE

/-! ## The dispatcher -/

/-- `strtok` on the text at the saved position `s` (for the first call, the line):
skip the leading delimiters; at the end of the text return `NULL`; otherwise the token
runs up to the next delimiter, which is overwritten with the terminator, and the saved
position moves behind it.  Returns the token and the new saved position. -/
def strtok (delim : List Char) (s : List Char) : Option (List Char) × List Char :=
  match s.dropWhile (fun c => delim.contains c) with
  | [] => (none, [])
  | c :: cs =>
    (some ((c :: cs).takeWhile (fun x => !delim.contains x)),
      ((c :: cs).dropWhile (fun x => !delim.contains x)).drop 1)

/-- The bytes stored by `fgets` when there is room for `n` more, and the input left:
reading stops after a newline, at the end of the input, or when the room is used up. -/
def fgets_bytes : Nat → List Char → List Char × List Char
  | 0, input => ([], input)
  | _ + 1, [] => ([], [])
  | n + 1, c :: cs =>
    if c = '\n' then ([c], cs) else (c :: (fgets_bytes n cs).1, (fgets_bytes n cs).2)

/-- The C library call `fgets(line, size, in)` on the input still to be read: `NULL` at
the end of the input, otherwise at most `size - 1` bytes (the last one of the buffer is
the terminator). -/
def fgets (size : Nat) (input : List Char) : Option (List Char × List Char) :=
  match input with
  | [] => none
  | _ :: _ => some (fgets_bytes (size - 1) input)

/-- The C string left in `line` by `line[strcspn(line, "\n")] = 0`, for the bytes `buf`
stored by `fgets`: the bytes before the first newline or terminator. -/
def chomp (buf : List Char) : List Char :=
  buf.takeWhile (fun c => c ≠ '\n' ∧ c ≠ Char.ofNat 0)

/-- The ten lines printed by `help`. -/
def help_text : List Event :=
  [Event.out "Available commands:\n",
   Event.out "help (0 args) Print this help message\n",
   Event.out "quit (0 args) Quit the program\n",
   Event.out "register (0 args) Register a daemon\n",
   Event.out "unregister (1 args) Unregister a daemon\n",
   Event.out "status (1 args) Show the status of a daemon\n",
   Event.out "status-all (0 args) Show the status of all daemons\n",
   Event.out "start (1 args) Start a daemon\n",
   Event.out "stop (1 args) Stop a daemon\n",
   Event.out "logrotate (1 args) Rotate log files for a daemon\n"]

/-- The part of the loop body of `run_cli` after `fgets`, for the bytes `buf` read into
`line`.  The first component is `false` when the loop is left (`quit`). -/
def run_cli_command (buf : List Char) (mem : Alloc) (status_message : String)
    (head : List daemon_t) : Bool × List daemon_t × List Event :=
  match strtok [' '] (chomp buf) with
  | (none, _) => (true, head, [])
  | (some cmd, saved) =>
    if String.mk cmd = "help" then (true, head, help_text)
    else if String.mk cmd = "quit" then (false, head, [])
    else if String.mk cmd = "register" then
      match strtok [' '] saved with
      | (name, saved1) =>
        match name, (strtok [] saved1).1 with
        | some name, some command =>
          (true, register_daemon (String.mk name) (String.mk command) mem head)
        | _, _ =>
          (true, head,
            [Event.out "Error: Invalid arguments. Usage: register <name> <command>\n"])
    else if String.mk cmd = "unregister" then
      match (strtok [' '] saved).1 with
      | none =>
        (true, head, [Event.out "Error: Missing daemon name. Usage: unregister <name>\n"])
      | some name => (true, unregister_daemon (String.mk name) head)
    else if String.mk cmd = "status" then
      match (strtok [' '] saved).1 with
      | none =>
        (true, head, [Event.out "Error: Missing daemon name. Usage: status <name>\n"])
      | some name => (true, daemon_status (String.mk name) head)
    else if String.mk cmd = "status-all" then (true, status_all status_message head)
    else if String.mk cmd = "start" then
      match (strtok [' '] saved).1 with
      | none =>
        (true, head, [Event.out "Error: Missing daemon name. Usage: start <name>\n"])
      | some name => (true, start (String.mk name) head)
    else (true, head, [Event.out ("Unknown command: " ++ String.mk cmd ++ "\n")])

/-- What one iteration of the loop of `run_cli` receives from outside: the bytes that
`fgets` stores in `line`, the outcome of the allocations of a `register_daemon` call,
and the content of the buffer of a `status_all` call. -/
structure Turn where
  buf : List Char
  mem : Alloc
  status_message : String

/-- `run_cli` on the successive results of `fgets`; after the last one `fgets` returns
`NULL` (end of input). -/
def run_cli : List Turn → List daemon_t → List daemon_t × List Event
  | [], head =>
    (head, [Event.sf_prompt, Event.out "legion> ", Event.sf_error "Error reading the input"])
  | t :: ts, head =>
    match run_cli_command t.buf t.mem t.status_message head with
    | (false, head1, ev) => (head1, [Event.sf_prompt, Event.out "legion> "] ++ ev)
    | (true, head1, ev) =>
      ((run_cli ts head1).1, [Event.sf_prompt, Event.out "legion> "] ++ ev ++ (run_cli ts head1).2)

/-- The texts written to `out` by a call, in order (the hook calls are left out). -/
def out_texts : List Event → List String
  | [] => []
  | Event.out text :: evs => text :: out_texts evs
  | _ :: evs => out_texts evs

/-- The whole text written to `out` by a call: the texts of its `fprintf` calls, one after
the other. -/
def out_text : List Event → String
  | [] => ""
  | Event.out text :: evs => text ++ out_text evs
  | _ :: evs => out_text evs

/-! ## Lemmas on the registry functions -/

theorem is_daemon_registered_iff (name : String) (head : List daemon_t) :
    is_daemon_registered name head = true ↔ ∃ d ∈ head, d.name = name := by
  induction head with
  | nil => simp [is_daemon_registered]
  | cons c next ih =>
    by_cases hc : c.name = name
    · simp [is_daemon_registered, hc]
    · simp [is_daemon_registered, hc, ih]

theorem is_daemon_registered_eq_false_iff (name : String) (head : List daemon_t) :
    is_daemon_registered name head = false ↔ ∀ d ∈ head, d.name ≠ name := by
  rw [← Bool.not_eq_true, is_daemon_registered_iff]
  simp

theorem lookup_eq_none_iff (name : String) (head : List daemon_t) :
    lookup name head = none ↔ ∀ d ∈ head, d.name ≠ name := by
  induction head with
  | nil => simp [lookup]
  | cons c next ih =>
    by_cases hc : c.name = name
    · simp [lookup, hc]
    · simp [lookup, hc, ih]

theorem lookup_some_name {name : String} {head : List daemon_t} {d : daemon_t}
    (h : lookup name head = some d) : d.name = name := by
  induction head with
  | nil => simp [lookup] at h
  | cons c next ih =>
    by_cases hc : c.name = name
    · simp [lookup, hc] at h
      rw [← h]; exact hc
    · simp [lookup, hc] at h
      exact ih h

theorem lookup_some_mem {name : String} {head : List daemon_t} {d : daemon_t}
    (h : lookup name head = some d) : d ∈ head := by
  induction head with
  | nil => simp [lookup] at h
  | cons c next ih =>
    by_cases hc : c.name = name
    · simp [lookup, hc] at h
      simp [h]
    · simp [lookup, hc] at h
      exact List.mem_cons_of_mem _ (ih h)

theorem lookup_isSome_of_mem {name : String} {head : List daemon_t}
    (h : ∃ d ∈ head, d.name = name) : ∃ d, lookup name head = some d := by
  cases hl : lookup name head with
  | some d => exact ⟨d, rfl⟩
  | none =>
    obtain ⟨d, hd, hn⟩ := h
    exact absurd hn ((lookup_eq_none_iff name head).1 hl d hd)

/-- The outcome of `unregister_daemon` when the first node named `name` is `d`. -/
theorem unregister_daemon_of_lookup {name : String} {head : List daemon_t} {d : daemon_t}
    (h : lookup name head = some d) :
    unregister_daemon name head =
      if d.state ≠ DAEMON_INACTIVE then
        (head, [Event.sf_error "Daemon is not in the inactive state."])
      else (head.erase d, [Event.sf_unregister name]) := by
  induction head with
  | nil => simp [lookup] at h
  | cons c next ih =>
    by_cases hc : c.name = name
    · simp [lookup, hc] at h
      subst h
      by_cases hs : c.state = DAEMON_INACTIVE <;> simp [unregister_daemon, hc, hs]
    · simp [lookup, hc] at h
      have hcd : c ≠ d := by
        intro hcd
        rw [hcd] at hc
        exact hc (lookup_some_name h)
      have hbeq : (c == d) = false := by simpa using hcd
      rw [unregister_daemon, if_pos hc, ih h, List.erase_cons_tail (by simp [hbeq])]
      by_cases hs : d.state = DAEMON_INACTIVE <;> simp [hs]

theorem unregister_daemon_not_found {name : String} {head : List daemon_t}
    (h : ∀ d ∈ head, d.name ≠ name) :
    unregister_daemon name head =
      (head, [Event.sf_error "Daemon with the specified name not found."]) := by
  induction head with
  | nil => rfl
  | cons c next ih =>
    have hc : c.name ≠ name := h c (List.mem_cons_self _ _)
    have hn := ih (fun d hd => h d (List.mem_cons_of_mem _ hd))
    rw [unregister_daemon, if_pos hc, hn]

theorem unregister_daemon_sublist (name : String) (head : List daemon_t) :
    List.Sublist (unregister_daemon name head).1 head := by
  induction head with
  | nil => simp [unregister_daemon]
  | cons c next ih =>
    rw [unregister_daemon]
    split_ifs
    · exact ih.cons₂ c
    · exact List.Sublist.refl _
    · exact List.sublist_cons_self c next

theorem register_daemon_fst (name cmd : String) (mem : Alloc) (head : List daemon_t) :
    (register_daemon name cmd mem head).1 = head ∨
      (is_daemon_registered name head = false ∧
        (register_daemon name cmd mem head).1 =
          ⟨name, cmd, -1, DAEMON_INACTIVE⟩ :: head) := by
  obtain ⟨n, m, c⟩ := mem
  cases hr : is_daemon_registered name head <;> cases n <;> cases m <;> cases c <;>
    simp [register_daemon, allocate_and_copy, hr]

theorem erase_eq_filter_name {name : String} {head : List daemon_t} {d : daemon_t}
    (hnd : (head.map daemon_t.name).Nodup) (h : lookup name head = some d) :
    head.erase d = head.filter (fun x => decide (x.name ≠ name)) := by
  induction head with
  | nil => simp [lookup] at h
  | cons c next ih =>
    rw [List.map_cons, List.nodup_cons] at hnd
    by_cases hc : c.name = name
    · simp [lookup, hc] at h
      subst h
      have hall : ∀ x ∈ next, x.name ≠ name := by
        intro x hx hxn
        exact hnd.1 (List.mem_map.2 ⟨x, hx, by rw [hxn, hc]⟩)
      rw [List.erase_cons_head, List.filter_cons_of_neg (by simp [hc])]
      symm
      rw [List.filter_eq_self]
      intro x hx
      simpa using hall x hx
    · simp [lookup, hc] at h
      have hcd : c ≠ d := by
        intro hcd
        rw [hcd] at hc
        exact hc (lookup_some_name h)
      have hbeq : (c == d) = false := by simpa using hcd
      rw [List.erase_cons_tail (by simp [hbeq]), List.filter_cons_of_pos (by simpa using hc),
        ih hnd.2 h]

theorem exec_names_nodup (c : Call) (head : List daemon_t)
    (h : (head.map daemon_t.name).Nodup) : (((c.exec head).1).map daemon_t.name).Nodup := by
  cases c with
  | register_daemon name cmd mem =>
    rcases register_daemon_fst name cmd mem head with hr | ⟨hn, hr⟩
    · simp only [Call.exec]; rw [hr]; exact h
    · simp only [Call.exec]; rw [hr, List.map_cons, List.nodup_cons]
      refine ⟨?_, h⟩
      intro hmem
      obtain ⟨d, hd, hdn⟩ := List.mem_map.1 hmem
      exact (is_daemon_registered_eq_false_iff name head).1 hn d hd hdn
  | unregister_daemon name =>
    exact List.Nodup.sublist ((unregister_daemon_sublist name head).map _) h
  | start name => exact h
  | daemon_status name => exact h
  | status_all status_message =>
    cases head <;> exact h

theorem exec_all_idle (c : Call) (head : List daemon_t) (h : all_idle head) :
    all_idle (c.exec head).1 := by
  cases c with
  | register_daemon name cmd mem =>
    rcases register_daemon_fst name cmd mem head with hr | ⟨_, hr⟩
    · simp only [Call.exec]; rw [hr]; exact h
    · simp only [Call.exec]; rw [hr]
      intro d hd
      rcases List.mem_cons.1 hd with hd | hd
      · subst hd; exact ⟨rfl, rfl⟩
      · exact h d hd
  | unregister_daemon name =>
    intro d hd
    exact h d ((unregister_daemon_sublist name head).subset hd)
  | start name => exact h
  | daemon_status name => exact h
  | status_all status_message =>
    cases head <;> exact h

theorem run_calls_names_nodup (cs : List Call) (head : List daemon_t)
    (h : (head.map daemon_t.name).Nodup) : ((run_calls cs head).map daemon_t.name).Nodup := by
  induction cs generalizing head with
  | nil => exact h
  | cons c cs ih => exact ih _ (exec_names_nodup c head h)

theorem run_calls_all_idle (cs : List Call) (head : List daemon_t) (h : all_idle head) :
    all_idle (run_calls cs head) := by
  induction cs generalizing head with
  | nil => exact h
  | cons c cs ih => exact ih _ (exec_all_idle c head h)

theorem dropWhile_head_false {α : Type} (p : α → Bool) (l : List α) (c : α) (cs : List α)
    (h : l.dropWhile p = c :: cs) : p c = false := by
  induction l with
  | nil => simp at h
  | cons a as ih =>
    rw [List.dropWhile_cons] at h
    by_cases ha : p a = true
    · rw [if_pos ha] at h; exact ih h
    · rw [if_neg ha] at h
      injection h with h1 h2
      rw [← h1]; simpa using ha

theorem strtok_token_ne_nil {delim s tok saved : List Char}
    (h : strtok delim s = (some tok, saved)) : tok ≠ [] := by
  unfold strtok at h
  split at h
  · simp at h
  · rename_i c cs hd
    have hc := dropWhile_head_false _ _ _ _ hd
    simp only [Prod.mk.injEq, Option.some.injEq] at h
    rw [← h.1, List.takeWhile_cons]
    have hc2 : c ∉ delim := by simpa using hc
    simp [hc2]

theorem string_mk_ne_empty {l : List Char} (h : l ≠ []) : String.mk l ≠ "" := by
  intro he
  apply h
  have : (String.mk l).data = ("" : String).data := by rw [he]
  simpa using this

theorem register_all_eq (pairs : List (String × String)) (head : List daemon_t)
    (hnd : (pairs.map Prod.fst).Nodup) (hh : ∀ p ∈ pairs, ∀ d ∈ head, d.name ≠ p.1) :
    register_all pairs head =
      pairs.reverse.map (fun p => (⟨p.1, p.2, -1, DAEMON_INACTIVE⟩ : daemon_t)) ++ head := by
  induction pairs generalizing head with
  | nil => simp [register_all]
  | cons p ps ih =>
    rw [List.map_cons, List.nodup_cons] at hnd
    have hp : is_daemon_registered p.1 head = false :=
      (is_daemon_registered_eq_false_iff _ _).2 (hh p (List.mem_cons_self _ _))
    have hr : register_daemon p.1 p.2 Alloc.ok head =
        (⟨p.1, p.2, -1, DAEMON_INACTIVE⟩ :: head, [Event.sf_register p.1 p.2]) := by
      simp [register_daemon, allocate_and_copy, hp, Alloc.ok]
    rw [register_all, hr, ih _ hnd.2]
    · simp
    · intro q hq d hd
      rcases List.mem_cons.1 hd with hd | hd
      · subst hd
        intro he
        exact hnd.1 (List.mem_map.2 ⟨q, hq, he.symm⟩)
      · exact hh q (List.mem_cons_of_mem _ hq) d hd

theorem status_line_idle (name command : String) :
    status_line ⟨name, command, -1, DAEMON_INACTIVE⟩ = name ++ "\t-1\tinactive\n" := by
  have h1 : toString (-1 : Int) = "-1" := by decide
  have h2 : daemon_state DAEMON_INACTIVE = "inactive" := by decide
  simp only [status_line, h1, h2, String.append_assoc]
  rfl

/-! ## The claims -/

/-- C1: when a record named `name` is already in the list, `register_daemon name cmd2`
reports "Daemon already registered." and does nothing else: the list after the call is
the list before it, and the record found under `name` is the one that was there, with
its original command. -/
theorem register_daemon_duplicate_rejected (head : List daemon_t) (name cmd2 : String)
    (mem : Alloc) (h : ∃ d ∈ head, d.name = name) :
    register_daemon name cmd2 mem head =
        (head, [Event.sf_error "Daemon already registered."]) ∧
      ∃ d, lookup name head = some d ∧
        lookup name (register_daemon name cmd2 mem head).1 = some d := by
  have hr : is_daemon_registered name head = true := (is_daemon_registered_iff name head).2 h
  have he : register_daemon name cmd2 mem head =
      (head, [Event.sf_error "Daemon already registered."]) := by
    simp [register_daemon, hr]
  obtain ⟨d, hd⟩ := lookup_isSome_of_mem h
  exact ⟨he, d, hd, by rw [he]; exact hd⟩

theorem register_daemon_duplicate_rejected_witness :
    (∃ d ∈ [(⟨"x", "cmd", -1, DAEMON_INACTIVE⟩ : daemon_t)], d.name = "x") ∧
      (register_daemon "x" "cmd2" Alloc.ok [⟨"x", "cmd", -1, DAEMON_INACTIVE⟩] =
          ([⟨"x", "cmd", -1, DAEMON_INACTIVE⟩],
            [Event.sf_error "Daemon already registered."]) ∧
        ∃ d, lookup "x" [⟨"x", "cmd", -1, DAEMON_INACTIVE⟩] = some d ∧
          lookup "x" (register_daemon "x" "cmd2" Alloc.ok
            [⟨"x", "cmd", -1, DAEMON_INACTIVE⟩]).1 = some d) :=
  ⟨⟨_, List.mem_singleton.2 rfl, rfl⟩,
    register_daemon_duplicate_rejected [⟨"x", "cmd", -1, DAEMON_INACTIVE⟩] "x" "cmd2" Alloc.ok
      ⟨_, List.mem_singleton.2 rfl, rfl⟩⟩

/-- C2: when the first record named `name` is `d`, `unregister_daemon name` succeeds
(it removes `d` and calls `sf_unregister`) if and only if the state of `d` is
`DAEMON_INACTIVE`; in every other state it reports "Daemon is not in the inactive
state." and leaves the whole list as it was. -/
theorem unregister_daemon_succeeds_iff_inactive (head : List daemon_t) (name : String)
    (d : daemon_t) (h : lookup name head = some d) :
    (unregister_daemon name head = (head.erase d, [Event.sf_unregister name]) ↔
        d.state = DAEMON_INACTIVE) ∧
      (d.state ≠ DAEMON_INACTIVE →
        unregister_daemon name head =
          (head, [Event.sf_error "Daemon is not in the inactive state."])) := by
  rw [unregister_daemon_of_lookup h]
  by_cases hs : d.state = DAEMON_INACTIVE
  · simp [hs]
  · simp [hs]

theorem unregister_daemon_succeeds_iff_inactive_witness :
    lookup "b" [⟨"a", "x", -1, DAEMON_INACTIVE⟩, ⟨"b", "y", 7, DAEMON_ACTIVE⟩] =
        some ⟨"b", "y", 7, DAEMON_ACTIVE⟩ ∧
      ((unregister_daemon "b" [⟨"a", "x", -1, DAEMON_INACTIVE⟩, ⟨"b", "y", 7, DAEMON_ACTIVE⟩] =
          (([⟨"a", "x", -1, DAEMON_INACTIVE⟩, ⟨"b", "y", 7, DAEMON_ACTIVE⟩] :
              List daemon_t).erase ⟨"b", "y", 7, DAEMON_ACTIVE⟩,
            [Event.sf_unregister "b"]) ↔
          (⟨"b", "y", 7, DAEMON_ACTIVE⟩ : daemon_t).state = DAEMON_INACTIVE) ∧
        ((⟨"b", "y", 7, DAEMON_ACTIVE⟩ : daemon_t).state ≠ DAEMON_INACTIVE →
          unregister_daemon "b"
              [⟨"a", "x", -1, DAEMON_INACTIVE⟩, ⟨"b", "y", 7, DAEMON_ACTIVE⟩] =
            ([⟨"a", "x", -1, DAEMON_INACTIVE⟩, ⟨"b", "y", 7, DAEMON_ACTIVE⟩],
              [Event.sf_error "Daemon is not in the inactive state."]))) :=
  ⟨by decide, unregister_daemon_succeeds_iff_inactive _ "b" ⟨"b", "y", 7, DAEMON_ACTIVE⟩
    (by decide)⟩

/-- C3: in a list with pairwise distinct names whose record `d` named `name` is
`DAEMON_INACTIVE`, `unregister_daemon name` leaves exactly the list with that one record
removed (`erase`), which is the list of all records with another name, in their original
order; no record named `name` remains, so that `lookup`, `is_daemon_registered` and
`daemon_status` no longer find it. -/
theorem unregister_daemon_removes_exactly (head : List daemon_t) (name : String)
    (d : daemon_t) (hnd : (head.map daemon_t.name).Nodup) (h : lookup name head = some d)
    (hs : d.state = DAEMON_INACTIVE) :
    (unregister_daemon name head).1 = head.erase d ∧
      (unregister_daemon name head).1 = head.filter (fun x => decide (x.name ≠ name)) ∧
      (unregister_daemon name head).2 = [Event.sf_unregister name] ∧
      ((unregister_daemon name head).1).length + 1 = head.length ∧
      (∀ x ∈ (unregister_daemon name head).1, x.name ≠ name) ∧
      lookup name (unregister_daemon name head).1 = none ∧
      is_daemon_registered name (unregister_daemon name head).1 = false ∧
      (daemon_status name (unregister_daemon name head).1).2 =
        [Event.sf_error "Daemon with the specified name not found."] := by
  have he : unregister_daemon name head = (head.erase d, [Event.sf_unregister name]) := by
    rw [unregister_daemon_of_lookup h]; simp [hs]
  have hf := erase_eq_filter_name hnd h
  have hall : ∀ x ∈ head.erase d, x.name ≠ name := by
    rw [hf]
    intro x hx
    simpa using (List.mem_filter.1 hx).2
  have hlen : (head.erase d).length + 1 = head.length := by
    have hpos : 0 < head.length := List.length_pos_of_mem (lookup_some_mem h)
    rw [List.length_erase_of_mem (lookup_some_mem h)]
    omega
  have hst : ∀ l : List daemon_t, (∀ x ∈ l, x.name ≠ name) →
      daemon_status_events name l =
        [Event.sf_error "Daemon with the specified name not found."] := by
    intro l
    induction l with
    | nil => intro _; rfl
    | cons c next ih =>
      intro hl
      have hc : c.name ≠ name := hl c (List.mem_cons_self _ _)
      rw [daemon_status_events, if_neg hc]
      exact ih (fun x hx => hl x (List.mem_cons_of_mem _ hx))
  rw [he]
  refine ⟨rfl, hf, rfl, hlen, hall, (lookup_eq_none_iff _ _).2 hall,
    (is_daemon_registered_eq_false_iff _ _).2 hall, ?_⟩
  exact hst _ hall

theorem unregister_daemon_removes_exactly_witness :
    (([⟨"a", "x", -1, DAEMON_INACTIVE⟩, ⟨"b", "y", -1, DAEMON_INACTIVE⟩,
        ⟨"c", "z", -1, DAEMON_INACTIVE⟩] : List daemon_t).map daemon_t.name).Nodup ∧
      lookup "b" [⟨"a", "x", -1, DAEMON_INACTIVE⟩, ⟨"b", "y", -1, DAEMON_INACTIVE⟩,
        ⟨"c", "z", -1, DAEMON_INACTIVE⟩] = some ⟨"b", "y", -1, DAEMON_INACTIVE⟩ ∧
      (⟨"b", "y", -1, DAEMON_INACTIVE⟩ : daemon_t).state = DAEMON_INACTIVE ∧
      (unregister_daemon "b" [⟨"a", "x", -1, DAEMON_INACTIVE⟩, ⟨"b", "y", -1, DAEMON_INACTIVE⟩,
        ⟨"c", "z", -1, DAEMON_INACTIVE⟩]).1 =
        [⟨"a", "x", -1, DAEMON_INACTIVE⟩, ⟨"c", "z", -1, DAEMON_INACTIVE⟩] :=
  ⟨by decide, by decide, by decide,
    (unregister_daemon_removes_exactly
      [⟨"a", "x", -1, DAEMON_INACTIVE⟩, ⟨"b", "y", -1, DAEMON_INACTIVE⟩,
        ⟨"c", "z", -1, DAEMON_INACTIVE⟩] "b" ⟨"b", "y", -1, DAEMON_INACTIVE⟩
      (by decide) (by decide) (by decide)).1.trans (by decide)⟩

/-- C4: when no record of the list is named `name` and the allocations succeed,
`register_daemon name cmd` puts exactly one new record in front of the list, holding
that name and that command with state `DAEMON_INACTIVE` and pid -1, calls
`sf_register`, and leaves the records already there as they were. -/
theorem register_daemon_inserts (head : List daemon_t) (name cmd : String)
    (h : ∀ d ∈ head, d.name ≠ name) :
    register_daemon name cmd Alloc.ok head =
      (⟨name, cmd, -1, DAEMON_INACTIVE⟩ :: head, [Event.sf_register name cmd]) := by
  have hr := (is_daemon_registered_eq_false_iff name head).2 h
  simp [register_daemon, allocate_and_copy, hr, Alloc.ok]

theorem register_daemon_inserts_witness :
    (∀ d ∈ [(⟨"a", "x", -1, DAEMON_INACTIVE⟩ : daemon_t)], d.name ≠ "web") ∧
      register_daemon "web" "/bin/sleep 100" Alloc.ok [⟨"a", "x", -1, DAEMON_INACTIVE⟩] =
        ([⟨"web", "/bin/sleep 100", -1, DAEMON_INACTIVE⟩, ⟨"a", "x", -1, DAEMON_INACTIVE⟩],
          [Event.sf_register "web" "/bin/sleep 100"]) :=
  ⟨by decide, register_daemon_inserts [⟨"a", "x", -1, DAEMON_INACTIVE⟩] "web"
    "/bin/sleep 100" (by decide)⟩

/-- C5: after any finite sequence of calls of `register_daemon`, `unregister_daemon`,
`start`, `daemon_status` and `status_all`, with any arguments and any allocation
outcomes, performed on the empty list, the names of the records are pairwise
distinct. -/
theorem names_unique_invariant (cs : List Call) :
    ((run_calls cs []).map daemon_t.name).Nodup :=
  run_calls_names_nodup cs [] List.nodup_nil

/-- C6: when no record of the list is named `name`, `unregister_daemon name` reports
"Daemon with the specified name not found." and leaves the list as it was. -/
theorem unregister_daemon_missing_rejected (head : List daemon_t) (name : String)
    (h : ∀ d ∈ head, d.name ≠ name) :
    unregister_daemon name head =
      (head, [Event.sf_error "Daemon with the specified name not found."]) :=
  unregister_daemon_not_found h

theorem unregister_daemon_missing_rejected_witness :
    (∀ d ∈ [(⟨"a", "x", -1, DAEMON_INACTIVE⟩ : daemon_t)], d.name ≠ "missing") ∧
      unregister_daemon "missing" [⟨"a", "x", -1, DAEMON_INACTIVE⟩] =
        ([⟨"a", "x", -1, DAEMON_INACTIVE⟩],
          [Event.sf_error "Daemon with the specified name not found."]) :=
  ⟨by decide, unregister_daemon_missing_rejected [⟨"a", "x", -1, DAEMON_INACTIVE⟩] "missing"
    (by decide)⟩

/-- C7, as the claim states it, fails: `register_daemon` makes no check of its arguments.
Called with an empty name and an empty command on the empty list, it inserts a record
and reports no error. -/
theorem register_daemon_accepts_empty_arguments :
    register_daemon "" "" Alloc.ok [] =
      ([⟨"", "", -1, DAEMON_INACTIVE⟩], [Event.sf_register "" ""]) := by
  decide

/-- C8, as the claim states it, fails: after registering `a` and then `b` on the empty
list, `status_all` prints the line of `b` before the line of `a`, which is not the
registration order. -/
theorem status_all_lists_last_registered_first :
    (status_all "" (register_all [("a", "x"), ("b", "y")] [])).2 =
        [Event.out "b\t-1\tinactive\n", Event.out "a\t-1\tinactive\n",
          Event.sf_status "", Event.out "\n"] ∧
      (status_all "" (register_all [("a", "x"), ("b", "y")] [])).2 ≠
        [Event.out "a\t-1\tinactive\n", Event.out "b\t-1\tinactive\n",
          Event.sf_status "", Event.out "\n"] := by
  decide

/-- C8, amended: `register_daemon` inserts at the front of the list, so the listing of
`status_all` is in reverse registration order.  After successful registrations of
pairwise distinct names n1, ..., nk on the empty list, the list holds the records of
nk, ..., n1 in that order, and `status_all` prints their lines `name<TAB>-1<TAB>inactive`
in that order (last registered first), before passing its buffer to `sf_status` and
printing it; for k = 0 it prints "No daemons registered." only. -/
theorem status_all_reverse_registration_order (pairs : List (String × String))
    (status_message : String) (hnd : (pairs.map Prod.fst).Nodup) :
    register_all pairs [] =
        pairs.reverse.map (fun p => (⟨p.1, p.2, -1, DAEMON_INACTIVE⟩ : daemon_t)) ∧
      (status_all status_message (register_all pairs [])).2 =
        if pairs = [] then [Event.out "No daemons registered.\n"]
        else pairs.reverse.map (fun p => Event.out (p.1 ++ "\t-1\tinactive\n")) ++
          [Event.sf_status status_message, Event.out (status_message ++ "\n")] := by
  have hr := register_all_eq pairs [] hnd (fun _ _ d hd => absurd hd (List.not_mem_nil d))
  rw [List.append_nil] at hr
  refine ⟨hr, ?_⟩
  rw [hr]
  cases pairs with
  | nil => rfl
  | cons p ps =>
    rw [if_neg (List.cons_ne_nil p ps)]
    cases hrev : (p :: ps).reverse with
    | nil => simp at hrev
    | cons q qs =>
      have hfun : ((fun current => Event.out (status_line current)) ∘
          fun p : String × String => (⟨p.1, p.2, -1, DAEMON_INACTIVE⟩ : daemon_t)) =
          fun p => Event.out (p.1 ++ "\t-1\tinactive\n") := by
        funext p
        simp only [Function.comp, status_line_idle]
      simp only [List.map_cons, status_all, List.map_map, status_line_idle, hfun]

theorem status_all_reverse_registration_order_witness :
    ((([("a", "x"), ("b", "y"), ("c", "z")] : List (String × String)).map Prod.fst).Nodup) ∧
      (status_all "" (register_all [("a", "x"), ("b", "y"), ("c", "z")] [])).2 =
        [Event.out "c\t-1\tinactive\n", Event.out "b\t-1\tinactive\n",
          Event.out "a\t-1\tinactive\n", Event.sf_status "", Event.out "\n"] :=
  ⟨by decide,
    (status_all_reverse_registration_order [("a", "x"), ("b", "y"), ("c", "z")] ""
      (by decide)).2.trans (by decide)⟩

/-- C9: on the list holding the single `DAEMON_INACTIVE` record `web`, `start "web"`
changes nothing and prints nothing, and the status printed afterwards is still
`web<TAB>-1<TAB>inactive`, not an active state with a positive pid. -/
theorem start_leaves_record_inactive :
    start "web" [⟨"web", "/bin/sleep 100", -1, DAEMON_INACTIVE⟩] =
        ([⟨"web", "/bin/sleep 100", -1, DAEMON_INACTIVE⟩], []) ∧
      (daemon_status "web"
          (start "web" [⟨"web", "/bin/sleep 100", -1, DAEMON_INACTIVE⟩]).1).2 =
        [Event.out "web\t-1\tinactive\n"] := by
  decide

/-- C10: in every list reached from the empty one by a sequence of calls of
`register_daemon`, `unregister_daemon` and `start` (and also of `daemon_status` and
`status_all`), each record has a pid different from -1 if and only if its state is
`DAEMON_STARTING`, `DAEMON_ACTIVE` or `DAEMON_STOPPING`. -/
theorem handle_state_invariant (cs : List Call) (d : daemon_t)
    (h : d ∈ run_calls cs []) :
    d.pid ≠ -1 ↔
      (d.state = DAEMON_STARTING ∨ d.state = DAEMON_ACTIVE ∨ d.state = DAEMON_STOPPING) := by
  obtain ⟨hp, hs⟩ :=
    run_calls_all_idle cs [] (fun x hx => absurd hx (List.not_mem_nil x)) d h
  rw [hp, hs]
  decide

theorem handle_state_invariant_witness :
    (⟨"a", "x", -1, DAEMON_INACTIVE⟩ : daemon_t) ∈
        run_calls [Call.register_daemon "a" "x" Alloc.ok, Call.start "a"] [] ∧
      ((⟨"a", "x", -1, DAEMON_INACTIVE⟩ : daemon_t).pid ≠ -1 ↔
        ((⟨"a", "x", -1, DAEMON_INACTIVE⟩ : daemon_t).state = DAEMON_STARTING ∨
          (⟨"a", "x", -1, DAEMON_INACTIVE⟩ : daemon_t).state = DAEMON_ACTIVE ∨
          (⟨"a", "x", -1, DAEMON_INACTIVE⟩ : daemon_t).state = DAEMON_STOPPING)) :=
  ⟨by decide,
    handle_state_invariant [Call.register_daemon "a" "x" Alloc.ok, Call.start "a"]
      ⟨"a", "x", -1, DAEMON_INACTIVE⟩ (by decide)⟩

/-! ## Lemmas on the status functions -/

theorem daemon_status_events_eq (name : String) (head : List daemon_t) :
    daemon_status_events name head =
      match lookup name head with
      | some d => [Event.out (status_line d)]
      | none => [Event.sf_error "Daemon with the specified name not found."] := by
  induction head with
  | nil => rfl
  | cons c next ih =>
    by_cases hc : c.name = name
    · simp [daemon_status_events, lookup, hc]
    · simp [daemon_status_events, lookup, hc, ih]

theorem out_texts_append (xs ys : List Event) :
    out_texts (xs ++ ys) = out_texts xs ++ out_texts ys := by
  induction xs with
  | nil => rfl
  | cons e es ih => cases e <;> simp [out_texts, ih]

theorem out_texts_map_out (f : daemon_t → String) (l : List daemon_t) :
    out_texts (l.map (fun d => Event.out (f d))) = l.map f := by
  induction l with
  | nil => rfl
  | cons d ds ih => simp [out_texts, ih]

/-! ## The claims on the status output -/

theorem daemon_state_table (state : Int) :
    daemon_state state =
      if state = 0 then "inactive"
      else if state = 1 then "active"
      else if state = 2 then "starting"
      else if state = 3 then "stopping"
      else if state = 4 then "exited"
      else if state = 5 then "crashed"
      else "unknown" := rfl

theorem lookup_some_split {name : String} {head : List daemon_t} {d : daemon_t}
    (h : lookup name head = some d) :
    ∃ pre rest, head = pre ++ d :: rest ∧ (∀ x ∈ pre, x.name ≠ name) ∧ d.name = name := by
  induction head with
  | nil => simp [lookup] at h
  | cons c next ih =>
    by_cases hc : c.name = name
    · simp [lookup, hc] at h
      subst h
      exact ⟨[], next, rfl, fun x hx => absurd hx (List.not_mem_nil x), hc⟩
    · simp [lookup, hc] at h
      obtain ⟨pre, rest, he, hp, hd⟩ := ih h
      refine ⟨c :: pre, rest, by rw [he]; rfl, ?_, hd⟩
      intro x hx
      rcases List.mem_cons.1 hx with hx | hx
      · rw [hx]; exact hc
      · exact hp x hx

/-- C11: `daemon_status name` leaves the list as it was.  When a record has that name,
it writes exactly one line, `name<TAB>pid<TAB>state`, for the first such record `d` (the
record found by `lookup`, that is the one with no record of that name before it): the
pid is the pid of `d` in decimal and the state text is `inactive`, `active`, `starting`,
`stopping`, `exited` or `crashed` for the state values 0 to 5 of `d` and `unknown` for
any other value.  When no record has that name it writes no line and reports "Daemon
with the specified name not found.".  A freshly registered record prints
`name<TAB>-1<TAB>inactive`, an active one with pid 4242 prints
`name<TAB>4242<TAB>active`. -/
theorem daemon_status_prints_record (name : String) (head : List daemon_t) :
    daemon_status name head =
        (head,
          match lookup name head with
          | some d =>
            [Event.out (name ++ "\t" ++ toString d.pid ++ "\t" ++
              (if d.state = 0 then "inactive"
               else if d.state = 1 then "active"
               else if d.state = 2 then "starting"
               else if d.state = 3 then "stopping"
               else if d.state = 4 then "exited"
               else if d.state = 5 then "crashed"
               else "unknown") ++ "\n")]
          | none => [Event.sf_error "Daemon with the specified name not found."]) ∧
      (lookup name head = none ↔ ∀ d ∈ head, d.name ≠ name) ∧
      (∀ d, lookup name head = some d →
        ∃ pre rest, head = pre ++ d :: rest ∧ (∀ x ∈ pre, x.name ≠ name) ∧ d.name = name) ∧
      (∀ (cmd : String) (rest : List daemon_t),
        daemon_status name (⟨name, cmd, -1, DAEMON_INACTIVE⟩ :: rest) =
          (⟨name, cmd, -1, DAEMON_INACTIVE⟩ :: rest,
            [Event.out (name ++ "\t-1\tinactive\n")])) ∧
      ∀ (cmd : String) (rest : List daemon_t),
        daemon_status name (⟨name, cmd, 4242, DAEMON_ACTIVE⟩ :: rest) =
          (⟨name, cmd, 4242, DAEMON_ACTIVE⟩ :: rest,
            [Event.out (name ++ "\t4242\tactive\n")]) := by
  refine ⟨?_, lookup_eq_none_iff name head, fun d hd => lookup_some_split hd, ?_, ?_⟩
  · rw [daemon_status, daemon_status_events_eq]
    cases hl : lookup name head with
    | none => rfl
    | some d =>
      have hn := lookup_some_name hl
      simp only [status_line, hn, daemon_state_table]
  · intro cmd rest
    simp [daemon_status, daemon_status_events, status_line_idle]
  · intro cmd rest
    have h1 : toString (4242 : Int) = "4242" := by decide
    have h2 : daemon_state DAEMON_ACTIVE = "active" := by decide
    simp only [daemon_status, daemon_status_events, if_true, status_line, h1, h2,
      String.append_assoc]
    rfl

theorem daemon_status_prints_record_witness :
    daemon_status "web"
        [⟨"db", "/bin/db", -1, DAEMON_INACTIVE⟩, ⟨"web", "/bin/sleep 100", 4242, DAEMON_ACTIVE⟩,
          ⟨"old", "/bin/old", -1, DAEMON_CRASHED⟩] =
      ([⟨"db", "/bin/db", -1, DAEMON_INACTIVE⟩, ⟨"web", "/bin/sleep 100", 4242, DAEMON_ACTIVE⟩,
          ⟨"old", "/bin/old", -1, DAEMON_CRASHED⟩],
        [Event.out "web\t4242\tactive\n"]) :=
  (daemon_status_prints_record "web"
    [⟨"db", "/bin/db", -1, DAEMON_INACTIVE⟩, ⟨"web", "/bin/sleep 100", 4242, DAEMON_ACTIVE⟩,
      ⟨"old", "/bin/old", -1, DAEMON_CRASHED⟩]).1.trans (by decide)

/-- C12: on the empty list `status_all` writes the single line "No daemons registered."
and nothing else (no per-daemon line, no hook call), and the list stays empty. -/
theorem status_all_empty (status_message : String) :
    status_all status_message [] = ([], [Event.out "No daemons registered.\n"]) ∧
      out_texts (status_all status_message []).2 = ["No daemons registered.\n"] := by
  exact ⟨rfl, rfl⟩

/-- The events of `status_all` on a non-empty list: one `fprintf` of the status line per
record, in list order, then the `sf_status` call and the `fprintf` of the buffer. -/
theorem status_all_lines (status_message : String) (head : List daemon_t)
    (h : head ≠ []) :
    status_all status_message head =
        (head, head.map (fun d => Event.out (status_line d)) ++
          [Event.sf_status status_message, Event.out (status_message ++ "\n")]) ∧
      out_texts (status_all status_message head).2 =
        head.map status_line ++ [status_message ++ "\n"] := by
  cases head with
  | nil => exact absurd rfl h
  | cons c next =>
    have ho : out_texts (status_all status_message (c :: next)).2 =
        (c :: next).map status_line ++ [status_message ++ "\n"] := by
      simp only [status_all]
      rw [out_texts_append, out_texts_map_out]
      rfl
    exact ⟨rfl, ho⟩

/-- C13: on the list holding the single record `a`, whatever the never-written buffer
`status_message` holds, `status_all` does not stop after the status line of the record:
it passes the buffer to `sf_status` and writes the content of the buffer and a newline
to `out`.  The text written is the status line followed by that extra text, so it is
never just the one status line that the claim allows. -/
theorem status_all_prints_buffer (status_message : String) :
    status_all status_message [⟨"a", "x", -1, DAEMON_INACTIVE⟩] =
        ([⟨"a", "x", -1, DAEMON_INACTIVE⟩],
          [Event.out "a\t-1\tinactive\n", Event.sf_status status_message,
            Event.out (status_message ++ "\n")]) ∧
      out_text (status_all status_message [⟨"a", "x", -1, DAEMON_INACTIVE⟩]).2 =
        "a\t-1\tinactive\n" ++ (status_message ++ "\n") ∧
      out_text (status_all status_message [⟨"a", "x", -1, DAEMON_INACTIVE⟩]).2 ≠
        "a\t-1\tinactive\n" := by
  have he : status_all status_message [⟨"a", "x", -1, DAEMON_INACTIVE⟩] =
      ([⟨"a", "x", -1, DAEMON_INACTIVE⟩],
        [Event.out "a\t-1\tinactive\n", Event.sf_status status_message,
          Event.out (status_message ++ "\n")]) := by
    simp only [status_all, List.map_cons, List.map_nil, status_line_idle]
    rfl
  have ht : out_text (status_all status_message [⟨"a", "x", -1, DAEMON_INACTIVE⟩]).2 =
      "a\t-1\tinactive\n" ++ (status_message ++ "\n") := by
    rw [he]
    simp [out_text]
  refine ⟨he, ht, ?_⟩
  rw [ht]
  intro hc
  have hlen := congrArg String.length hc
  simp only [String.length_append] at hlen
  have h1 : ("\n" : String).length = 1 := by decide
  omega

/-- C14: `daemon_state` maps `DAEMON_INACTIVE` (0) to "inactive", `DAEMON_ACTIVE` (1) to
"active", `DAEMON_STARTING` (2) to "starting", `DAEMON_STOPPING` (3) to "stopping",
`DAEMON_EXITED` (4) to "exited", `DAEMON_CRASHED` (5) to "crashed"; it yields "unknown"
exactly for the other values, among them `DAEMON_UNKNOWN` (6); and the strings of the
seven declared states are pairwise distinct. -/
theorem daemon_state_strings (state : Int) :
    (DAEMON_INACTIVE = 0 ∧ DAEMON_ACTIVE = 1 ∧ DAEMON_STARTING = 2 ∧ DAEMON_STOPPING = 3 ∧
        DAEMON_EXITED = 4 ∧ DAEMON_CRASHED = 5 ∧ DAEMON_UNKNOWN = 6) ∧
      (daemon_state 0 = "inactive" ∧ daemon_state 1 = "active" ∧
        daemon_state 2 = "starting" ∧ daemon_state 3 = "stopping" ∧
        daemon_state 4 = "exited" ∧ daemon_state 5 = "crashed" ∧
        daemon_state 6 = "unknown") ∧
      (daemon_state state = "unknown" ↔ (state < 0 ∨ 5 < state)) ∧
      ([DAEMON_INACTIVE, DAEMON_ACTIVE, DAEMON_STARTING, DAEMON_STOPPING, DAEMON_EXITED,
        DAEMON_CRASHED, DAEMON_UNKNOWN].map daemon_state).Nodup := by
  refine ⟨by decide, by decide, ?_, by decide⟩
  constructor
  · intro hs
    by_contra hc
    have h0 : 0 ≤ state := by omega
    have h5 : state ≤ 5 := by omega
    interval_cases state <;> revert hs <;> decide
  · intro hs
    have e0 : state ≠ 0 := by omega
    have e1 : state ≠ 1 := by omega
    have e2 : state ≠ 2 := by omega
    have e3 : state ≠ 3 := by omega
    have e4 : state ≠ 4 := by omega
    have e5 : state ≠ 5 := by omega
    simp [daemon_state, DAEMON_INACTIVE, DAEMON_ACTIVE, DAEMON_STARTING, DAEMON_STOPPING,
      DAEMON_EXITED, DAEMON_CRASHED, e0, e1, e2, e3, e4, e5]

/-- C17: when no record of the list is named `name`, `register_daemon name cmd` followed
by `unregister_daemon name` gives back exactly the original list (same records, same
order), whatever the outcome of the allocations. -/
theorem register_then_unregister (head : List daemon_t) (name cmd : String) (mem : Alloc)
    (h : ∀ d ∈ head, d.name ≠ name) :
    (unregister_daemon name (register_daemon name cmd mem head).1).1 = head := by
  rcases register_daemon_fst name cmd mem head with hr | ⟨_, hr⟩
  · rw [hr, unregister_daemon_not_found h]
  · rw [hr]
    simp [unregister_daemon, DAEMON_INACTIVE]

theorem register_then_unregister_witness :
    (∀ d ∈ [(⟨"a", "x", -1, DAEMON_INACTIVE⟩ : daemon_t)], d.name ≠ "web") ∧
      (unregister_daemon "web"
        (register_daemon "web" "/bin/sleep 100" Alloc.ok
          [⟨"a", "x", -1, DAEMON_INACTIVE⟩]).1).1 = [⟨"a", "x", -1, DAEMON_INACTIVE⟩] :=
  ⟨by decide,
    register_then_unregister [⟨"a", "x", -1, DAEMON_INACTIVE⟩] "web" "/bin/sleep 100"
      Alloc.ok (by decide)⟩

/-! ## Lemmas on the dispatcher -/

theorem strtok_nil (delim : List Char) : strtok delim [] = (none, []) := rfl

theorem strtok_skip (delim : List Char) (c : Char) (cs : List Char)
    (h : delim.contains c = true) : strtok delim (c :: cs) = strtok delim cs := by
  unfold strtok
  rw [List.dropWhile_cons, if_pos h]

theorem strtok_of_head (delim : List Char) (c : Char) (cs : List Char)
    (h : delim.contains c = false) :
    strtok delim (c :: cs) =
      (some ((c :: cs).takeWhile (fun x => !delim.contains x)),
        ((c :: cs).dropWhile (fun x => !delim.contains x)).drop 1) := by
  unfold strtok
  rw [List.dropWhile_cons, if_neg (by rw [h]; decide)]

theorem strtok_spaces (k : Nat) (s : List Char) :
    strtok [' '] (List.replicate k ' ' ++ s) = strtok [' '] s := by
  induction k with
  | zero => rfl
  | succ k ih =>
    rw [List.replicate_succ, List.cons_append, strtok_skip _ _ _ (by decide), ih]

theorem takeWhile_stop {p : Char → Bool} (l : List Char) (x : Char) (r : List Char)
    (hl : ∀ c ∈ l, p c = true) (hx : p x = false) :
    (l ++ x :: r).takeWhile p = l ∧ (l ++ x :: r).dropWhile p = x :: r := by
  induction l with
  | nil => simp [List.takeWhile_cons, List.dropWhile_cons, hx]
  | cons a as ih =>
    have ha : p a = true := hl a (List.mem_cons_self _ _)
    have := ih (fun c hc => hl c (List.mem_cons_of_mem _ hc))
    simp [List.takeWhile_cons, List.dropWhile_cons, ha, this]

theorem takeWhile_all {p : Char → Bool} (l : List Char) (hl : ∀ c ∈ l, p c = true) :
    l.takeWhile p = l ∧ l.dropWhile p = [] := by
  induction l with
  | nil => simp
  | cons a as ih =>
    have ha : p a = true := hl a (List.mem_cons_self _ _)
    have := ih (fun c hc => hl c (List.mem_cons_of_mem _ hc))
    simp [List.takeWhile_cons, List.dropWhile_cons, ha, this]

/-- A token without spaces that is followed by a space. -/
theorem strtok_space_token (tok rest : List Char) (hne : tok ≠ [])
    (hns : ∀ c ∈ tok, c ≠ ' ') :
    strtok [' '] (tok ++ ' ' :: rest) = (some tok, rest) := by
  cases tok with
  | nil => exact absurd rfl hne
  | cons a t =>
    have ha : a ≠ ' ' := hns a (List.mem_cons_self _ _)
    rw [List.cons_append, strtok_of_head _ _ _ (by simp [ha]), ← List.cons_append]
    have h := takeWhile_stop (a :: t) ' ' rest (p := fun x => !([' '].contains x))
      (fun c hc => by simp [hns c hc]) (by decide)
    rw [h.1, h.2]
    rfl

/-- A token without spaces at the end of the line. -/
theorem strtok_space_last (tok : List Char) (hne : tok ≠ []) (hns : ∀ c ∈ tok, c ≠ ' ') :
    strtok [' '] tok = (some tok, []) := by
  cases tok with
  | nil => exact absurd rfl hne
  | cons a t =>
    have ha : a ≠ ' ' := hns a (List.mem_cons_self _ _)
    rw [strtok_of_head _ _ _ (by simp [ha])]
    have h := takeWhile_all (a :: t) (p := fun x => !([' '].contains x))
      (fun c hc => by simp [hns c hc])
    rw [h.1, h.2]
    rfl

/-- With the empty delimiter set the token is the whole rest of the line. -/
theorem strtok_rest (s : List Char) (hne : s ≠ []) : strtok [] s = (some s, []) := by
  cases s with
  | nil => exact absurd rfl hne
  | cons a t =>
    rw [strtok_of_head _ _ _ (by simp)]
    have h := takeWhile_all (a :: t) (p := fun x => !(([] : List Char).contains x))
      (fun c _ => by simp)
    rw [h.1, h.2]
    rfl

theorem chomp_line (l : List Char) (hl : ∀ c ∈ l, c ≠ '\n' ∧ c ≠ Char.ofNat 0) :
    chomp l = l ∧ chomp (l ++ ['\n']) = l := by
  unfold chomp
  constructor
  · exact (takeWhile_all l (fun c hc => by simpa using hl c hc)).1
  · exact (takeWhile_stop l '\n' [] (fun c hc => by simpa using hl c hc) (by decide)).1

theorem register_chars :
    ∀ c ∈ "register".toList, c ≠ ' ' ∧ c ≠ '\n' ∧ c ≠ Char.ofNat 0 := by
  decide

/-- The `register` branch of the dispatcher, once the first token is known. -/
theorem run_cli_command_register (buf saved : List Char) (mem : Alloc)
    (status_message : String) (head : List daemon_t)
    (h : strtok [' '] (chomp buf) = (some "register".toList, saved)) :
    run_cli_command buf mem status_message head =
      match (strtok [' '] saved).1, (strtok [] (strtok [' '] saved).2).1 with
      | some name, some command =>
        (true, register_daemon (String.mk name) (String.mk command) mem head)
      | _, _ =>
        (true, head,
          [Event.out "Error: Invalid arguments. Usage: register <name> <command>\n"]) := by
  unfold run_cli_command
  rw [h]
  rfl

/-- The first token of a line that starts with `register` and a space. -/
theorem strtok_register_line (rest : List Char)
    (hr : ∀ c ∈ rest, c ≠ '\n' ∧ c ≠ Char.ofNat 0) :
    strtok [' '] (chomp ("register".toList ++ ' ' :: rest)) = (some "register".toList, rest) ∧
      strtok [' '] (chomp ("register".toList ++ ' ' :: rest ++ ['\n'])) =
        (some "register".toList, rest) := by
  have hl : ∀ c ∈ "register".toList ++ ' ' :: rest, c ≠ '\n' ∧ c ≠ Char.ofNat 0 := by
    intro c hc
    rcases List.mem_append.1 hc with h1 | h1
    · exact (register_chars c h1).2
    · rcases List.mem_cons.1 h1 with h2 | h2
      · subst h2; decide
      · exact hr c h2
  have hc := chomp_line _ hl
  have ht := strtok_space_token "register".toList rest (by decide)
    (fun c hc => (register_chars c hc).1)
  constructor
  · rw [hc.1, ht]
  · rw [hc.2, ht]

theorem fgets_bytes_line (line rest : List Char) (n : Nat)
    (hl : ∀ c ∈ line, c ≠ '\n') (hn : line.length < n) :
    fgets_bytes n (line ++ '\n' :: rest) = (line ++ ['\n'], rest) := by
  induction line generalizing n with
  | nil =>
    cases n with
    | zero => exact absurd hn (Nat.lt_irrefl 0)
    | succ n => simp [fgets_bytes]
  | cons a as ih =>
    cases n with
    | zero => exact absurd hn (Nat.not_lt_zero _)
    | succ n =>
      have ha : a ≠ '\n' := hl a (List.mem_cons_self _ _)
      have hlen : as.length < n := by simpa using hn
      have := ih n (fun c hc => hl c (List.mem_cons_of_mem _ hc)) hlen
      simp [fgets_bytes, ha, this]

/-! ## The claims on the dispatcher -/

/-- C15: for every list, the line `start ghost` is a silent no-op: the dispatcher hands
it to `start`, whose body is empty, so no error is reported and nothing is printed,
also when no record is named `ghost` (as on the empty list). -/
theorem start_unknown_name_is_silent (mem : Alloc) (status_message : String)
    (head : List daemon_t) :
    run_cli_command "start ghost\n".toList mem status_message head = (true, head, []) ∧
      run_cli_command "start ghost\n".toList mem status_message [] = (true, [], []) := by
  exact ⟨rfl, rfl⟩

/-- C16: on the list holding the `DAEMON_INACTIVE` record `web`, the line `stop web` is
answered with "Unknown command: stop": the dispatcher has no branch for `stop`. -/
theorem stop_is_unknown_command (mem : Alloc) (status_message : String) :
    run_cli_command "stop web\n".toList mem status_message
        [⟨"web", "/bin/sleep 100", -1, DAEMON_INACTIVE⟩] =
      (true, [⟨"web", "/bin/sleep 100", -1, DAEMON_INACTIVE⟩],
        [Event.out "Unknown command: stop\n"]) := by
  rfl

/-- C18: the parsing of a `register` line.  Let `N` be a non-empty name without space,
newline or terminator and `C` a non-empty command without newline or terminator, the
line `register N C` with its newline fitting the 2048-byte buffer.  Then `fgets` stores
the whole line with its newline, and the dispatcher, given that line (with its newline,
or without it at the end of the input), calls
`register_daemon` with the name `N` and the command `C`, the whole rest of the line with
its spaces.  A line `register` followed by spaces only (no name), and a line
`register N` with nothing or a single space after the name, print the usage error and
leave the list as it was. -/
theorem register_line_parsed (N C : List Char) (k : Nat) (mem : Alloc)
    (status_message : String) (head : List daemon_t)
    (hN : N ≠ []) (hNs : ∀ c ∈ N, c ≠ ' ' ∧ c ≠ '\n' ∧ c ≠ Char.ofNat 0)
    (hC : C ≠ []) (hCs : ∀ c ∈ C, c ≠ '\n' ∧ c ≠ Char.ofNat 0)
    (hlen : ("register".toList ++ ' ' :: N ++ ' ' :: C ++ ['\n']).length < 2048) :
    (∀ rest : List Char,
        fgets 2048 ("register".toList ++ ' ' :: N ++ ' ' :: C ++ '\n' :: rest) =
          some ("register".toList ++ ' ' :: N ++ ' ' :: C ++ ['\n'], rest)) ∧
      run_cli_command ("register".toList ++ ' ' :: N ++ ' ' :: C ++ ['\n'])
        mem status_message head =
        (true, register_daemon (String.mk N) (String.mk C) mem head) ∧
      run_cli_command ("register".toList ++ ' ' :: N ++ ' ' :: C) mem status_message head =
        (true, register_daemon (String.mk N) (String.mk C) mem head) ∧
      run_cli_command ("register".toList ++ ' ' :: List.replicate k ' ' ++ ['\n'])
        mem status_message head =
        (true, head,
          [Event.out "Error: Invalid arguments. Usage: register <name> <command>\n"]) ∧
      run_cli_command ("register".toList ++ ['\n']) mem status_message head =
        (true, head,
          [Event.out "Error: Invalid arguments. Usage: register <name> <command>\n"]) ∧
      run_cli_command ("register".toList ++ ' ' :: N ++ ['\n']) mem status_message head =
        (true, head,
          [Event.out "Error: Invalid arguments. Usage: register <name> <command>\n"]) ∧
      run_cli_command ("register".toList ++ ' ' :: N ++ [' ', '\n']) mem status_message head =
        (true, head,
          [Event.out "Error: Invalid arguments. Usage: register <name> <command>\n"]) := by
  have hNsp : ∀ c ∈ N, c ≠ ' ' := fun c hc => (hNs c hc).1
  have hNnl : ∀ c ∈ N, c ≠ '\n' ∧ c ≠ Char.ofNat 0 := fun c hc => (hNs c hc).2
  have hrep : ∀ c ∈ List.replicate k ' ', c ≠ '\n' ∧ c ≠ Char.ofNat 0 := by
    intro c hc
    rw [List.eq_of_mem_replicate hc]
    decide
  have hNC : ∀ c ∈ N ++ ' ' :: C, c ≠ '\n' ∧ c ≠ Char.ofNat 0 := by
    intro c hc
    rcases List.mem_append.1 hc with h1 | h1
    · exact hNnl c h1
    · rcases List.mem_cons.1 h1 with h2 | h2
      · subst h2; decide
      · exact hCs c h2
  have hN1 : ∀ c ∈ N ++ [' '], c ≠ '\n' ∧ c ≠ Char.ofNat 0 := by
    intro c hc
    rcases List.mem_append.1 hc with h1 | h1
    · exact hNnl c h1
    · rw [List.mem_singleton.1 h1]; decide
  have hname : strtok [' '] (N ++ ' ' :: C) = (some N, C) := strtok_space_token N C hN hNsp
  have hcmd : strtok [] C = (some C, []) := strtok_rest C hC
  have hgood :
      (match (strtok [' '] (N ++ ' ' :: C)).1,
          (strtok [] (strtok [' '] (N ++ ' ' :: C)).2).1 with
        | some name, some command =>
          (true, register_daemon (String.mk name) (String.mk command) mem head)
        | _, _ =>
          (true, head,
            [Event.out "Error: Invalid arguments. Usage: register <name> <command>\n"])) =
        (true, register_daemon (String.mk N) (String.mk C) mem head) := by
    rw [hname, hcmd]
  have e1 : "register".toList ++ ' ' :: N ++ ' ' :: C =
      "register".toList ++ ' ' :: (N ++ ' ' :: C) := by simp
  have e6 : "register".toList ++ ' ' :: N ++ [' ', '\n'] =
      "register".toList ++ ' ' :: (N ++ [' ']) ++ ['\n'] := by simp
  refine ⟨?_, ?_, ?_, ?_, ?_, ?_, ?_⟩
  · intro rest
    have hnl : ∀ c ∈ "register".toList ++ ' ' :: N ++ ' ' :: C, c ≠ '\n' := by
      intro c hc
      rw [e1] at hc
      rcases List.mem_append.1 hc with h1 | h1
      · exact (register_chars c h1).2.1
      · rcases List.mem_cons.1 h1 with h2 | h2
        · subst h2; decide
        · exact (hNC c h2).1
    have hroom : ("register".toList ++ ' ' :: N ++ ' ' :: C).length < 2048 - 1 := by
      rw [List.length_append] at hlen
      simp only [List.length_singleton] at hlen
      omega
    have hb := fgets_bytes_line _ rest (2048 - 1) hnl hroom
    cases hin : "register".toList ++ ' ' :: N ++ ' ' :: C ++ '\n' :: rest with
    | nil => simp at hin
    | cons x xs =>
      rw [← hin]
      simp only [fgets, hin]
      rw [← hin, hb]
  · rw [e1, run_cli_command_register _ _ _ _ _ (strtok_register_line _ hNC).2, hgood]
  · rw [e1, run_cli_command_register _ _ _ _ _ (strtok_register_line _ hNC).1, hgood]
  · rw [run_cli_command_register _ _ _ _ _ (strtok_register_line _ hrep).2]
    have h0 := strtok_spaces k []
    rw [List.append_nil, strtok_nil] at h0
    rw [h0]
  · rfl
  · rw [run_cli_command_register _ _ _ _ _ (strtok_register_line _ hNnl).2,
      strtok_space_last N hN hNsp]
    rfl
  · rw [e6, run_cli_command_register _ _ _ _ _ (strtok_register_line _ hN1).2,
      strtok_space_token N [] hN hNsp]
    rfl

theorem register_line_parsed_witness :
    ("web".toList ≠ [] ∧ (∀ c ∈ "web".toList, c ≠ ' ' ∧ c ≠ '\n' ∧ c ≠ Char.ofNat 0) ∧
        "/bin/sleep 100".toList ≠ [] ∧
        (∀ c ∈ "/bin/sleep 100".toList, c ≠ '\n' ∧ c ≠ Char.ofNat 0) ∧
        ("register".toList ++ ' ' :: "web".toList ++ ' ' :: "/bin/sleep 100".toList ++
          ['\n']).length < 2048) ∧
      fgets 2048 "register web /bin/sleep 100\nquit\n".toList =
        some ("register web /bin/sleep 100\n".toList, "quit\n".toList) ∧
      run_cli_command "register web /bin/sleep 100\n".toList Alloc.ok "" [] =
        (true, [⟨"web", "/bin/sleep 100", -1, DAEMON_INACTIVE⟩],
          [Event.sf_register "web" "/bin/sleep 100"]) :=
  ⟨⟨by decide, by decide, by decide, by decide, by decide⟩,
    by decide,
    (register_line_parsed "web".toList "/bin/sleep 100".toList 0 Alloc.ok "" []
      (by decide) (by decide) (by decide) (by decide) (by decide)).2.1.trans (by decide)⟩

/-! ## The argument check of the `register` command -/

theorem leading_spaces_split (s : List Char) :
    ∃ k t, s = List.replicate k ' ' ++ t ∧ (t = [] ∨ ∃ a r, t = a :: r ∧ a ≠ ' ') := by
  induction s with
  | nil => exact ⟨0, [], rfl, Or.inl rfl⟩
  | cons a s ih =>
    by_cases ha : a = ' '
    · obtain ⟨k, t, hs, ht⟩ := ih
      refine ⟨k + 1, t, ?_, ht⟩
      rw [List.replicate_succ, List.cons_append, ← hs, ha]
    · exact ⟨0, a :: s, rfl, Or.inr ⟨a, s, rfl, ha⟩⟩

theorem first_word_split (t : List Char) :
    ∃ N r, t = N ++ r ∧ (∀ c ∈ N, c ≠ ' ') ∧ (r = [] ∨ ∃ C, r = ' ' :: C) := by
  induction t with
  | nil => exact ⟨[], [], rfl, fun c hc => absurd hc (List.not_mem_nil c), Or.inl rfl⟩
  | cons a t ih =>
    by_cases ha : a = ' '
    · exact ⟨[], a :: t, rfl, fun c hc => absurd hc (List.not_mem_nil c),
        Or.inr ⟨t, by rw [ha]⟩⟩
    · obtain ⟨N, r, ht, hN, hr⟩ := ih
      refine ⟨a :: N, r, by rw [ht]; rfl, ?_, hr⟩
      intro c hc
      rcases List.mem_cons.1 hc with hc | hc
      · rw [hc]; exact ha
      · exact hN c hc

/-- Every text is of one of these shapes: spaces only; spaces and a word, with nothing
or one space after it; spaces, a word, one space and a non-empty rest. -/
theorem register_arguments_cases (saved : List Char) :
    (∃ k, saved = List.replicate k ' ') ∨
      (∃ k N, N ≠ [] ∧ (∀ c ∈ N, c ≠ ' ') ∧
        (saved = List.replicate k ' ' ++ N ∨ saved = List.replicate k ' ' ++ N ++ [' '])) ∨
      (∃ k N C, N ≠ [] ∧ (∀ c ∈ N, c ≠ ' ') ∧ C ≠ [] ∧
        saved = List.replicate k ' ' ++ N ++ ' ' :: C) := by
  obtain ⟨k, t, hs, ht⟩ := leading_spaces_split saved
  rcases ht with ht | ⟨a, r0, ht, ha⟩
  · left
    exact ⟨k, by rw [hs, ht, List.append_nil]⟩
  · right
    obtain ⟨N, r, hNr, hN, hr⟩ := first_word_split t
    have hne : N ≠ [] := by
      intro hnil
      rw [hnil, List.nil_append] at hNr
      rcases hr with hr | ⟨C, hr⟩
      · rw [hr] at hNr; rw [hNr] at ht; exact List.noConfusion ht
      · rw [hr] at hNr; rw [hNr] at ht
        injection ht with h1 h2
        exact ha h1.symm
    rcases hr with hr | ⟨C, hr⟩
    · left
      refine ⟨k, N, hne, hN, Or.inl ?_⟩
      rw [hs, hNr, hr, List.append_nil]
    · by_cases hC : C = []
      · left
        refine ⟨k, N, hne, hN, Or.inr ?_⟩
        rw [hs, hNr, hr, hC, List.append_assoc]
      · right
        refine ⟨k, N, C, hne, hN, hC, ?_⟩
        rw [hs, hNr, hr, List.append_assoc]

/-- The first token of a line made of spaces, `register`, a space and a text. -/
theorem register_line_first_token (j : Nat) (text eol : List Char)
    (ht : ∀ c ∈ text, c ≠ '\n' ∧ c ≠ Char.ofNat 0) (heol : eol = [] ∨ eol = ['\n']) :
    strtok [' '] (chomp (List.replicate j ' ' ++ ("register".toList ++ ' ' :: text) ++ eol)) =
      (some "register".toList, text) := by
  have hl : ∀ c ∈ List.replicate j ' ' ++ ("register".toList ++ ' ' :: text),
      c ≠ '\n' ∧ c ≠ Char.ofNat 0 := by
    intro c hc
    rcases List.mem_append.1 hc with h0 | h0
    · rw [List.eq_of_mem_replicate h0]; decide
    · rcases List.mem_append.1 h0 with h1 | h1
      · exact (register_chars c h1).2
      · rcases List.mem_cons.1 h1 with h2 | h2
        · subst h2; decide
        · exact ht c h2
  have hc := chomp_line _ hl
  have hk : strtok [' '] (List.replicate j ' ' ++ ("register".toList ++ ' ' :: text)) =
      (some "register".toList, text) := by
    rw [strtok_spaces]
    exact strtok_space_token "register".toList text (by decide)
      (fun c hc => (register_chars c hc).1)
  rcases heol with heol | heol
  · rw [heol, List.append_nil, hc.1, hk]
  · rw [heol, hc.2, hk]

/-- C7, amended: the invalid-argument check is made by the dispatcher, not by
`register_daemon`.  Take any list and any input line whose first token is `register`,
and let `saved` be the text of the line after that token and the space that ends it.
* If `saved` holds no name (it is made of spaces only), or holds a name with no command
  (the name ends the line, or only one space follows it), the line is rejected with
  "Error: Invalid arguments. Usage: register <name> <command>" and the list is left as
  it was.
* If `saved` is spaces, a name `N`, one space and a non-empty rest `C`, then
  `register_daemon` is called with exactly the name `N` and the command `C`, and both
  are non-empty strings.
* Every `saved` has one of these shapes, so `register_daemon` is never called by the
  dispatcher with an empty name or an empty command.
* A line made of spaces, `register`, a space and a text (without newline or terminator),
  with or without the final newline, has first token `register` and that text as
  `saved`. -/
theorem register_command_rejects_or_calls_nonempty (buf : List Char) (mem : Alloc)
    (status_message : String) (head : List daemon_t) (saved : List Char)
    (h : strtok [' '] (chomp buf) = (some "register".toList, saved)) :
    (∀ k, saved = List.replicate k ' ' →
        run_cli_command buf mem status_message head = (true, head,
          [Event.out "Error: Invalid arguments. Usage: register <name> <command>\n"])) ∧
      (∀ k N, N ≠ [] → (∀ c ∈ N, c ≠ ' ') →
        (saved = List.replicate k ' ' ++ N ∨ saved = List.replicate k ' ' ++ N ++ [' ']) →
        run_cli_command buf mem status_message head = (true, head,
          [Event.out "Error: Invalid arguments. Usage: register <name> <command>\n"])) ∧
      (∀ k N C, N ≠ [] → (∀ c ∈ N, c ≠ ' ') → C ≠ [] →
        saved = List.replicate k ' ' ++ N ++ ' ' :: C →
        String.mk N ≠ "" ∧ String.mk C ≠ "" ∧
          run_cli_command buf mem status_message head =
            (true, register_daemon (String.mk N) (String.mk C) mem head)) ∧
      ((∃ k, saved = List.replicate k ' ') ∨
        (∃ k N, N ≠ [] ∧ (∀ c ∈ N, c ≠ ' ') ∧
          (saved = List.replicate k ' ' ++ N ∨ saved = List.replicate k ' ' ++ N ++ [' '])) ∨
        (∃ k N C, N ≠ [] ∧ (∀ c ∈ N, c ≠ ' ') ∧ C ≠ [] ∧
          saved = List.replicate k ' ' ++ N ++ ' ' :: C)) ∧
      (∀ (j : Nat) (text eol : List Char), (∀ c ∈ text, c ≠ '\n' ∧ c ≠ Char.ofNat 0) →
        (eol = [] ∨ eol = ['\n']) →
        strtok [' ']
            (chomp (List.replicate j ' ' ++ ("register".toList ++ ' ' :: text) ++ eol)) =
          (some "register".toList, text)) := by
  have hrun := run_cli_command_register buf saved mem status_message head h
  refine ⟨?_, ?_, ?_, register_arguments_cases saved, register_line_first_token⟩
  · intro k hs
    have h0 := strtok_spaces k []
    rw [List.append_nil, strtok_nil] at h0
    rw [hrun, hs, h0]
  · intro k N hN hNs hs
    rcases hs with hs | hs
    · rw [hrun, hs, strtok_spaces, strtok_space_last N hN hNs]
      rfl
    · rw [hrun, hs, List.append_assoc, strtok_spaces, strtok_space_token N [] hN hNs]
      rfl
  · intro k N C hN hNs hC hs
    refine ⟨string_mk_ne_empty hN, string_mk_ne_empty hC, ?_⟩
    rw [hrun, hs, List.append_assoc, strtok_spaces, strtok_space_token N C hN hNs]
    simp only []
    rw [strtok_rest C hC]

theorem register_command_rejects_or_calls_nonempty_witness :
    strtok [' '] (chomp "  register  web /bin/sleep 100\n".toList) =
        (some "register".toList, " web /bin/sleep 100".toList) ∧
      run_cli_command "  register  web /bin/sleep 100\n".toList Alloc.ok "" [] =
        (true, [⟨"web", "/bin/sleep 100", -1, DAEMON_INACTIVE⟩],
          [Event.sf_register "web" "/bin/sleep 100"]) :=
  ⟨by decide,
    ((register_command_rejects_or_calls_nonempty "  register  web /bin/sleep 100\n".toList
      Alloc.ok "" [] " web /bin/sleep 100".toList (by decide)).2.2.1 1 "web".toList
      "/bin/sleep 100".toList (by decide) (by decide) (by decide) (by decide)).2.2.trans
      (by decide)⟩

end Legion
